import Mathlib

/-!
Verification development for the static SAT question-browser application
(`app.js`).  The JavaScript source is shallowly embedded: the global
mutable `state` object becomes an explicit `AppState` value, the
browser's `localStorage` becomes an association list of key/value
strings, `JSON.parse` / `JSON.stringify` become an executable parser and
printer over a `Json` value type, and every event handler becomes a pure
state-transforming function.  Machine numbers that matter (choice
indices, timestamps) are modelled as `Int`/`Nat`; fallible operations
(JSON parsing, `new Set(...)` on a non-iterable) return `Option`/`Except`.
-/

set_option autoImplicit false
set_option maxRecDepth 8192

namespace SatBank

/-- Model of a JavaScript JSON value (numbers restricted to integers,
which covers every value this application stores). -/
inductive Json where
  | null : Json
  | bool (b : Bool) : Json
  | num (n : Int) : Json
  | str (s : String) : Json
  | arr (elems : List Json) : Json
  | obj (fields : List (String × Json)) : Json
deriving Repr

mutual

/-- Structural equality on `Json` values (the model of `===`-style
comparison used to give `Set` membership semantics). -/
def jsonBeq : Json → Json → Bool
  | Json.null, Json.null => true
  | Json.bool a, Json.bool b => a == b
  | Json.num a, Json.num b => a == b
  | Json.str a, Json.str b => a == b
  | Json.arr a, Json.arr b => jsonListBeq a b
  | Json.obj a, Json.obj b => jsonFieldsBeq a b
  | _, _ => false

/-- Pointwise `jsonBeq` on lists of values. -/
def jsonListBeq : List Json → List Json → Bool
  | [], [] => true
  | a :: as, b :: bs => jsonBeq a b && jsonListBeq as bs
  | _, _ => false

/-- Pointwise `jsonBeq` on association lists of fields. -/
def jsonFieldsBeq : List (String × Json) → List (String × Json) → Bool
  | [], [] => true
  | (ka, va) :: as, (kb, vb) :: bs => ka == kb && jsonBeq va vb && jsonFieldsBeq as bs
  | _, _ => false

end

/-- Drop leading JSON whitespace. -/
def skipWs : List Char → List Char
  | [] => []
  | c :: cs => if c = ' ' ∨ c = '\n' ∨ c = '\t' ∨ c = '\r' then skipWs cs else c :: cs

/-- Parse the body of a JSON string literal (the opening quote already
consumed); returns the decoded characters and the rest of the input. -/
def parseStrBody : List Char → Option (List Char × List Char)
  | [] => none
  | '"' :: cs => some ([], cs)
  | '\\' :: e :: cs =>
    let ec? : Option Char :=
      if e = '"' then some '"'
      else if e = '\\' then some '\\'
      else if e = '/' then some '/'
      else if e = 'n' then some '\n'
      else if e = 't' then some '\t'
      else if e = 'r' then some '\r'
      else none
    match ec? with
    | none => none
    | some ec =>
      match parseStrBody cs with
      | none => none
      | some (s, rest) => some (ec :: s, rest)
  | '\\' :: [] => none
  | c :: cs =>
    match parseStrBody cs with
    | none => none
    | some (s, rest) => some (c :: s, rest)

/-- Split a maximal run of decimal digits off the front of the input. -/
def takeDigits : List Char → (List Char × List Char)
  | [] => ([], [])
  | c :: cs =>
    if c.isDigit then
      let p := takeDigits cs
      (c :: p.1, p.2)
    else ([], c :: cs)

/-- Numeric value of a digit run. -/
def numFromDigits (ds : List Char) : Nat :=
  ds.foldl (fun n c => n * 10 + (c.toNat - 48)) 0

mutual

/-- Fuel-indexed recursive-descent parser for one JSON value; returns
the value and the unconsumed input. -/
def parseVal : Nat → List Char → Option (Json × List Char)
  | 0, _ => none
  | fuel + 1, input =>
    match skipWs input with
    | '"' :: rest =>
      match parseStrBody rest with
      | none => none
      | some (s, r) => some (Json.str (String.mk s), r)
    | '[' :: rest =>
      (match skipWs rest with
       | ']' :: r2 => some (Json.arr [], r2)
       | r => match parseItems fuel r with
              | none => none
              | some (vs, r2) => some (Json.arr vs, r2))
    | '{' :: rest =>
      (match skipWs rest with
       | '}' :: r2 => some (Json.obj [], r2)
       | r => match parseFields fuel r with
              | none => none
              | some (fs, r2) => some (Json.obj fs, r2))
    | '-' :: rest =>
      (match takeDigits rest with
       | ([], _) => none
       | (ds, r) => some (Json.num (-(numFromDigits ds : Int)), r))
    | 't' :: 'r' :: 'u' :: 'e' :: rest => some (Json.bool true, rest)
    | 'f' :: 'a' :: 'l' :: 's' :: 'e' :: rest => some (Json.bool false, rest)
    | 'n' :: 'u' :: 'l' :: 'l' :: rest => some (Json.null, rest)
    | c :: rest =>
      if c.isDigit then
        match takeDigits (c :: rest) with
        | ([], _) => none
        | (ds, r) => some (Json.num (numFromDigits ds : Int), r)
      else none
    | [] => none

/-- Parse one or more comma-separated array items up to the closing
bracket. -/
def parseItems : Nat → List Char → Option (List Json × List Char)
  | 0, _ => none
  | fuel + 1, input =>
    match parseVal fuel input with
    | none => none
    | some (v, rest) =>
      match skipWs rest with
      | ',' :: r2 =>
        (match parseItems fuel r2 with
         | none => none
         | some (vs, r3) => some (v :: vs, r3))
      | ']' :: r2 => some ([v], r2)
      | _ => none

/-- Parse one or more comma-separated object fields up to the closing
brace. -/
def parseFields : Nat → List Char → Option (List (String × Json) × List Char)
  | 0, _ => none
  | fuel + 1, input =>
    match skipWs input with
    | '"' :: rest =>
      (match parseStrBody rest with
       | none => none
       | some (k, r1) =>
         match skipWs r1 with
         | ':' :: r2 =>
           (match parseVal fuel r2 with
            | none => none
            | some (v, r3) =>
              match skipWs r3 with
              | ',' :: r4 =>
                (match parseFields fuel r4 with
                 | none => none
                 | some (fs, r5) => some ((String.mk k, v) :: fs, r5))
              | '}' :: r4 => some ([(String.mk k, v)], r4)
              | _ => none)
         | _ => none)
    | _ => none

end

/-- Model of `JSON.parse`: `none` is a thrown `SyntaxError`.  The fuel
`2 * length + 4` dominates the recursion depth, which consumes at least
one input character per two fuel units. -/
def JSONparse (s : String) : Option Json :=
  match parseVal (2 * s.length + 4) s.data with
  | some (v, rest) => if (skipWs rest).isEmpty then some v else none
  | none => none

/-- Escape one character for a JSON string literal. -/
def escapeChar (c : Char) : List Char :=
  if c = '"' then ['\\', '"']
  else if c = '\\' then ['\\', '\\']
  else if c = '\n' then ['\\', 'n']
  else if c = '\t' then ['\\', 't']
  else if c = '\r' then ['\\', 'r']
  else [c]

/-- Escape every character of a string for a JSON string literal. -/
def escapeString (s : String) : String :=
  String.mk (s.data.foldr (fun c acc => escapeChar c ++ acc) [])

mutual

/-- Model of `JSON.stringify` (no pretty-printing, insertion-order
fields, which matches the JavaScript engine's behaviour on the values
this application serializes). -/
def stringifyVal : Json → String
  | Json.null => "null"
  | Json.bool true => "true"
  | Json.bool false => "false"
  | Json.num n => toString n
  | Json.str s => "\"" ++ escapeString s ++ "\""
  | Json.arr xs => "[" ++ stringifyItems xs ++ "]"
  | Json.obj fs => "\x7b" ++ stringifyFields fs ++ "\x7d"

/-- Comma-separated serialization of array items. -/
def stringifyItems : List Json → String
  | [] => ""
  | [x] => stringifyVal x
  | x :: y :: xs => stringifyVal x ++ "," ++ stringifyItems (y :: xs)

/-- Comma-separated serialization of object fields. -/
def stringifyFields : List (String × Json) → String
  | [] => ""
  | [(k, v)] => "\"" ++ escapeString k ++ "\":" ++ stringifyVal v
  | (k, v) :: f :: fs =>
    "\"" ++ escapeString k ++ "\":" ++ stringifyVal v ++ "," ++ stringifyFields (f :: fs)

end

/-- Model of the browser's `localStorage`: an insertion-ordered list of
key/value string pairs. -/
abbrev Storage := List (String × String)

/-- Model of `localStorage.getItem` (`none` is JavaScript `null`). -/
def getItem : Storage → String → Option String
  | [], _ => none
  | (k2, v) :: rest, k => if k2 == k then some v else getItem rest k

/-- Model of `localStorage.setItem`: overwrite in place, else append. -/
def setItem : Storage → String → String → Storage
  | [], k, v => [(k, v)]
  | (k2, v2) :: rest, k, v =>
    if k2 == k then (k2, v) :: rest else (k2, v2) :: setItem rest k v

/-! JavaScript string and truthiness helpers. -/

/-- Truthiness of an optional JavaScript string (`none` is
`undefined`/`null`; the empty string is falsy). -/
def truthyS : Option String → Bool
  | none => false
  | some s => !(s == "")

/-- Model of `a || b` on optional strings. -/
def jsOrS (a b : Option String) : Option String :=
  if truthyS a then a else b

/-- Model of `a || d` where the right operand is a plain string
(the serialized form of fallback chains ending in a literal). -/
def jsStrOr (a : Option String) (d : String) : String :=
  if truthyS a then a.getD "" else d

/-- ASCII lowercasing of one character (model of the effect of
`String.prototype.toLowerCase` on the ASCII data this app handles). -/
def charLower (c : Char) : Char :=
  if 'A' ≤ c ∧ c ≤ 'Z' then Char.ofNat (c.toNat + 32) else c

/-- Model of `s.toLowerCase()`. -/
def jsToLower (s : String) : String :=
  String.mk (s.data.map charLower)

/-- Whitespace test used by `trim`. -/
def isWsChar (c : Char) : Bool :=
  c = ' ' || c = '\n' || c = '\t' || c = '\r'

/-- Model of `s.trim()`: strip whitespace from both ends. -/
def jsTrim (s : String) : String :=
  String.mk (((s.data.dropWhile isWsChar).reverse.dropWhile isWsChar).reverse)

/-- Does `hay` start with `needle`? -/
def leadsWith : List Char → List Char → Bool
  | [], _ => true
  | _ :: _, [] => false
  | a :: as, b :: bs => a == b && leadsWith as bs

/-- Does `hay` contain `needle` as a contiguous run? -/
def hasSub (needle : List Char) : List Char → Bool
  | [] => needle.isEmpty
  | c :: t => leadsWith needle (c :: t) || hasSub needle t

/-- Model of `hay.includes(needle)`. -/
def strContains (hay needle : String) : Bool :=
  hasSub needle.data hay.data

/-! Data model: raw records, normalized questions, attempt records. -/

/-- Raw question record as found in a data chunk: every field is
optional (`none` models an absent/`undefined` JavaScript property).
Index fields are `Option Int` where `some` models a property that is
present with `typeof === "number"`. -/
structure RawRecord where
  uId : Option String := none
  id : Option String := none
  questionId : Option String := none
  module : Option String := none
  category : Option String := none
  primary_class_cd_desc : Option String := none
  domain : Option String := none
  skill_cd : Option String := none
  skill_desc : Option String := none
  difficulty : Option String := none
  diff : Option String := none
  score_band_range_cd : Option String := none
  band : Option String := none
  stem_html : Option String := none
  stem : Option String := none
  question_html : Option String := none
  choices : Option (List String) := none
  options : Option (List String) := none
  correct_choice_index : Option Int := none
  answer_index : Option Int := none
  explanation_html : Option String := none
  explanation : Option String := none
deriving Repr, DecidableEq

/-- Canonical question shape produced by the normalization step in
`main` (fields that the fallback chain can leave `undefined`/`null`
stay optional; fields defaulted to `""` are plain strings). -/
structure Question where
  uId : Option String
  questionId : Option String
  module : String
  primary_class_cd_desc : String
  skill_cd : String
  skill_desc : String
  difficulty : String
  score_band_range_cd : Option String
  stem_html : String
  choices : Option (List String)
  correct_choice_index : Option Int
  explanation_html : String
deriving Repr, DecidableEq

/-- Model of `x.category && x.category.toLowerCase().includes("math")`
coerced to the boolean outcome of the conditional. -/
def catContainsMath (x : RawRecord) : Bool :=
  match x.category with
  | none => false
  | some c => if c == "" then false else strContains (jsToLower c) "math"

/-- Normalization of one raw record (the object literal built inside
`items.map` in `main`). -/
def normalizeRecord (x : RawRecord) : Question :=
  { uId := jsOrS x.uId (jsOrS x.id x.questionId)
    questionId := jsOrS x.questionId (jsOrS x.id x.uId)
    module := jsStrOr x.module
      (if catContainsMath x then "math" else "reading-writing")
    primary_class_cd_desc := jsStrOr x.primary_class_cd_desc (jsStrOr x.domain "")
    skill_cd := jsStrOr x.skill_cd ""
    skill_desc := jsStrOr x.skill_desc ""
    difficulty := jsStrOr x.difficulty (jsStrOr x.diff "")
    score_band_range_cd := jsOrS x.score_band_range_cd (jsOrS x.band none)
    stem_html := jsStrOr x.stem_html (jsStrOr x.stem (jsStrOr x.question_html ""))
    choices := if x.choices.isSome then x.choices else x.options
    correct_choice_index :=
      match x.correct_choice_index with
      | some n => some n
      | none => x.answer_index
    explanation_html := jsStrOr x.explanation_html (jsStrOr x.explanation "") }

/-- Model of `items.map(x => ({...})).filter(x => !!x.uId)`. -/
def normalizeAll (items : List RawRecord) : List Question :=
  (items.map normalizeRecord).filter (fun q => truthyS q.uId)

/-- One attempt record `{id, correct, ts}` pushed on an answer-choice
click.  `id` stays optional because it is copied from `q.uId`. -/
structure Attempt where
  id : Option String
  correct : Bool
  ts : Int
deriving Repr, DecidableEq

/-- JSON encoding of an attempt record (a property that is `undefined`
is omitted by `JSON.stringify`, exactly as the engine does). -/
def attemptToJson (a : Attempt) : Json :=
  Json.obj ((match a.id with
             | some s => [("id", Json.str s)]
             | none => []) ++
            [("correct", Json.bool a.correct), ("ts", Json.num a.ts)])

/-! Application state and the state-transforming event handlers. -/

/-- Fixed page size: `state.pageSize` is initialized to `10` and never
reassigned anywhere in the source. -/
def pageSize : Nat := 10

/-- Explicit version of the global mutable `state` object (the DOM and
the unused worker are outside the model; `starred` models the insertion
order of the JavaScript `Set`, which `Array.from` observes). -/
structure AppState where
  questions : List Question
  filtered : List Question
  page : Nat
  starred : List String
  history : List Attempt
  storage : Storage
deriving Repr, DecidableEq

/-- Serialized payload written by `saveStarred`:
`JSON.stringify(Array.from(state.starred))`. -/
def starredPayload (starred : List String) : String :=
  stringifyVal (Json.arr (starred.map Json.str))

/-- Model of `state.history.slice(-200)`. -/
def lastN {α : Type} (n : Nat) (l : List α) : List α :=
  l.drop (l.length - n)

/-- Serialized payload written by `saveHistory`:
`JSON.stringify(state.history.slice(-200))`. -/
def historyPayload (history : List Attempt) : String :=
  stringifyVal (Json.arr ((lastN 200 history).map attemptToJson))

/-- Model of `saveStarred()`. -/
def saveStarred (st : AppState) : AppState :=
  { st with storage := setItem st.storage "starred" (starredPayload st.starred) }

/-- Model of `saveHistory()`. -/
def saveHistory (st : AppState) : AppState :=
  { st with storage := setItem st.storage "history" (historyPayload st.history) }

/-- Model of the star-button click handler in `renderItem`: toggle
membership in the `Set`, then persist.  `Set.delete` removes the single
occurrence (the list is duplicate-free, so a filter is equivalent);
`Set.add` inserts at the end of the insertion order. -/
def toggleStar (st : AppState) (id : String) : AppState :=
  let starred :=
    if st.starred.contains id then st.starred.filter (fun x => x ≠ id)
    else st.starred ++ [id]
  saveStarred { st with starred := starred }

/-- Model of `i === q.correct_choice_index`: strict equality of a
number with `null` is `false`. -/
def choiceCorrect (q : Question) (i : Nat) : Bool :=
  match q.correct_choice_index with
  | some c => (i : Int) == c
  | none => false

/-- CSS class added to the clicked choice element. -/
def markClass (q : Question) (i : Nat) : String :=
  if choiceCorrect q i then "correct" else "incorrect"

/-- Model of the answer-choice click handler in `renderItem`: append an
attempt record, then persist the history. -/
def clickChoice (st : AppState) (q : Question) (i : Nat) (ts : Int) : AppState :=
  saveHistory { st with history := st.history ++ [⟨q.uId, choiceCorrect q i, ts⟩] }

/-- A sequence of answer-choice clicks (question, choice index,
timestamp), applied in order. -/
def clickAll (st : AppState) (clicks : List (Question × Nat × Int)) : AppState :=
  clicks.foldl (fun s c => clickChoice s c.1 c.2.1 c.2.2) st

/-- Attempt record produced by one click. -/
def attemptOf (c : Question × Nat × Int) : Attempt :=
  ⟨c.1.uId, choiceCorrect c.1 c.2.1, c.2.2⟩

/-- Model of the `apply` closure in `mountFilters`: criteria come from
the UI controls (`qv` and `domainRaw` raw, trimmed and lowercased
inside; `moduleV` and `diffV` used verbatim). -/
def applyFilter (questions : List Question) (qv moduleV domainRaw diffV : String) :
    List Question :=
  let text := jsToLower (jsTrim qv)
  let domainV := jsToLower (jsTrim domainRaw)
  let arr := questions.filter (fun x =>
    if moduleV != "" && x.module != moduleV then false
    else if domainV != "" && !(strContains (jsToLower x.primary_class_cd_desc) domainV) then false
    else if diffV != "" && x.difficulty != diffV then false
    else true)
  if text != "" then
    arr.filter (fun x =>
      strContains (jsToLower x.stem_html) text || strContains (jsToLower x.skill_desc) text)
  else arr

/-- Model of `paginate`: `arr.slice(start, start + pageSize)` with
`start = (state.page - 1) * state.pageSize`. -/
def paginate (arr : List Question) (page : Nat) : List Question :=
  (arr.drop ((page - 1) * pageSize)).take pageSize

/-- Total page count as computed in `render` and `mountPager`:
`Math.max(1, Math.ceil(len / pageSize))`. -/
def totalPages (len : Nat) : Nat :=
  max 1 ((len + pageSize - 1) / pageSize)

/-- Model of the `prevPage` click handler. -/
def prevPage (st : AppState) : AppState :=
  { st with page := max 1 (st.page - 1) }

/-- Model of the `nextPage` click handler. -/
def nextPage (st : AppState) : AppState :=
  { st with page := min (totalPages st.filtered.length) (st.page + 1) }

/-- Swap the elements at positions `i` and `j` (no-op when either is
out of range), the effect of `[arr[i], arr[j]] = [arr[j], arr[i]]`. -/
def listSwap {α : Type} (l : List α) (i j : Nat) : List α :=
  match l[i]?, l[j]? with
  | some a, some b => (l.set i b).set j a
  | _, _ => l

/-- Fisher–Yates loop of `shufflePractice`: at index `i` (descending
from `length - 1` to `1`) swap with `j = draws i % (i + 1)`, modelling
`Math.floor(Math.random() * (i + 1))` for an arbitrary draw sequence. -/
def fyLoop {α : Type} (draws : Nat → Nat) : List α → Nat → List α
  | l, 0 => l
  | l, i + 1 => fyLoop draws (listSwap l (i + 1) (draws (i + 1) % (i + 2))) i

/-- Model of `shufflePractice()`. -/
def shufflePractice (st : AppState) (draws : Nat → Nat) : AppState :=
  let arr := fyLoop draws st.questions (st.questions.length - 1)
  { st with filtered := arr.take 10, page := 1 }

/-! Session-start loading of the persisted collections, and the
manifest loader. -/

/-- Model of `localStorage.getItem(key) || "[]"`. -/
def getItemOrEmptyArr (storage : Storage) (key : String) : String :=
  match getItem storage key with
  | none => "[]"
  | some v => if v == "" then "[]" else v

/-- Iterating the argument of `new Set(...)`: arrays yield their
elements, strings their characters, anything else throws a
`TypeError`. -/
def jsIterate : Json → Except String (List Json)
  | Json.arr xs => Except.ok xs
  | Json.str s => Except.ok (s.data.map (fun c => Json.str (String.mk [c])))
  | _ => Except.error "TypeError"

/-- Deduplicate, keeping first occurrences in order (JavaScript `Set`
construction). -/
def dedupJson (seen : List Json) : List Json → List Json
  | [] => []
  | x :: xs =>
    if seen.any (fun y => jsonBeq y x) then dedupJson seen xs
    else x :: dedupJson (seen ++ [x]) xs

/-- Model of `new Set(JSON.parse(localStorage.getItem("starred") || "[]"))`
evaluated during the `state` initializer; `Except.error` models a thrown
exception escaping to the top level (there is no `try`/`catch`). -/
def loadStarredInit (storage : Storage) : Except String (List Json) :=
  match JSONparse (getItemOrEmptyArr storage "starred") with
  | none => Except.error "SyntaxError"
  | some j =>
    match jsIterate j with
    | Except.error e => Except.error e
    | Except.ok xs => Except.ok (dedupJson [] xs)

/-- Model of `JSON.parse(localStorage.getItem("history") || "[]")`
evaluated during the `state` initializer. -/
def loadHistoryInit (storage : Storage) : Except String Json :=
  match JSONparse (getItemOrEmptyArr storage "history") with
  | none => Except.error "SyntaxError"
  | some j => Except.ok j

/-- Outcome of the `fetch` of `data/manifest.json`. -/
inductive FetchResult where
  | networkError : FetchResult
  | response (ok : Bool) (body : String) : FetchResult
deriving Repr, DecidableEq

/-- Built-in fallback manifest returned by the `catch` block of
`loadManifest`. -/
def fallbackManifest : Json :=
  Json.obj [("version", Json.num 1),
            ("chunks", Json.arr [Json.obj [("path", Json.str "data/sample.json")]])]

/-- Model of `loadManifest()`: a network error, a non-OK response
(`!res.ok` throws into the catch), or a body that fails to parse
(`res.json()` rejects) all yield the fallback manifest. -/
def loadManifest : FetchResult → Json
  | FetchResult.networkError => fallbackManifest
  | FetchResult.response ok body =>
    if !ok then fallbackManifest
    else
      match JSONparse body with
      | none => fallbackManifest
      | some j => j

/-- First field of a JSON object with the given key. -/
def jsonLookup (j : Json) (k : String) : Option Json :=
  match j with
  | Json.obj fs => (fs.find? (fun f => f.1 == k)).map (fun f => f.2)
  | _ => none

/-- Chunk paths a manifest names (what `loadAllChunks` iterates over). -/
def manifestChunkPaths (m : Json) : List String :=
  match jsonLookup m "chunks" with
  | some (Json.arr cs) =>
    cs.filterMap (fun c =>
      match jsonLookup c "path" with
      | some (Json.str p) => some p
      | _ => none)
  | _ => []

/-- Request URL issued by `loadAllChunks` for each chunk a manifest
names: the template literal prefixes every path with "data/". -/
def chunkRequestPaths (m : Json) : List String :=
  (manifestChunkPaths m).map (fun p => "data/" ++ p)

/-! Concrete fixtures used by witnesses and counterexamples below. -/

/-- A representative normalized question with no answer key. -/
def qDummy : Question :=
  { uId := some "q1", questionId := some "q1", module := "math",
    primary_class_cd_desc := "Algebra", skill_cd := "", skill_desc := "",
    difficulty := "M", score_band_range_cd := none, stem_html := "What?",
    choices := some ["A", "B"], correct_choice_index := none,
    explanation_html := "" }

/-- Numbered copies of `qDummy` with distinct identifiers. -/
def qNum (n : Nat) : Question :=
  { qDummy with uId := some (toString n), questionId := some (toString n) }

/-- A representative attempt record. -/
def aDummy : Attempt := ⟨some "q1", false, 0⟩

/-- Fresh session state with empty storage. -/
def st0 : AppState := ⟨[], [], 1, [], [], []⟩

/-- Session state with exactly one filtered question. -/
def stOne : AppState := ⟨[qDummy], [qDummy], 1, [], [], []⟩

/-- Session state with ten distinct questions. -/
def stTen : AppState := ⟨(List.range 10).map qNum, [], 1, [], [], []⟩

/-- Session state with an in-memory history of 201 attempts. -/
def stBig : AppState := ⟨[], [], 1, [], List.replicate 201 aDummy, []⟩

/-- A sequence of 201 identical answer-choice clicks. -/
def clicks201 : List (Question × Nat × Int) := List.replicate 201 (qDummy, 0, 0)

/-- Session state whose starred set is `{"a", "b"}` (insertion order
`a` then `b`) with the persisted copy in sync. -/
def stAB : AppState := ⟨[], [], 1, ["a", "b"], [], [("starred", starredPayload ["a", "b"])]⟩

/-- Session state whose starred set is `{"b"}` with the persisted copy
in sync. -/
def stB : AppState := ⟨[], [], 1, ["b"], [], [("starred", starredPayload ["b"])]⟩

/-! Storage lemmas. -/

theorem getItem_setItem_same (st : Storage) (k v : String) :
    getItem (setItem st k v) k = some v := by
  induction st with
  | nil => simp [setItem, getItem]
  | cons p rest ih =>
    obtain ⟨k2, v2⟩ := p
    by_cases h : k2 = k
    · simp [setItem, getItem, h]
    · simp [setItem, getItem, h, ih]

theorem setItem_setItem_same (st : Storage) (k a b : String) :
    setItem (setItem st k a) k b = setItem st k b := by
  induction st with
  | nil => simp [setItem]
  | cons p rest ih =>
    obtain ⟨k2, v2⟩ := p
    by_cases h : k2 = k
    · simp [setItem, h]
    · simp [setItem, h, ih]

theorem setItem_of_getItem_eq (st : Storage) (k v : String)
    (h : getItem st k = some v) : setItem st k v = st := by
  induction st with
  | nil => simp [getItem] at h
  | cons p rest ih =>
    obtain ⟨k2, v2⟩ := p
    by_cases hk : k2 = k
    · simp [getItem, hk] at h
      simp [setItem, hk, h]
    · simp [getItem, hk] at h
      simp [setItem, hk, ih h]

/-! C1.  The spec claims a malformed persisted value under "starred" or
"history" is recovered to an empty collection without crashing.  The
initializer `JSON.parse(localStorage.getItem(key) || "[]")` has no
`try`/`catch`, so a stored string that is not valid JSON throws a
`SyntaxError` out of the `state` initializer: the claim fails and is
corrected to: a missing (or empty) stored value yields the empty
collection, while a malformed stored string makes the load throw. -/

/-- C1 counterexample: with `"nope"` (not valid JSON) stored under
"starred" (resp. "history"), the session-start load throws a
`SyntaxError` instead of yielding the empty collection. -/
theorem load_malformed_cex :
    JSONparse "nope" = none
    ∧ loadStarredInit [("starred", "nope")] = Except.error "SyntaxError"
    ∧ loadStarredInit [("starred", "nope")] ≠ Except.ok []
    ∧ loadHistoryInit [("history", "nope")] = Except.error "SyntaxError"
    ∧ loadHistoryInit [("history", "nope")] ≠ Except.ok (Json.arr []) := by
  refine ⟨rfl, rfl, ?_, rfl, ?_⟩
  · intro h
    rw [show loadStarredInit [("starred", "nope")] = Except.error "SyntaxError" from rfl] at h
    exact Except.noConfusion h
  · intro h
    rw [show loadHistoryInit [("history", "nope")] = Except.error "SyntaxError" from rfl] at h
    exact Except.noConfusion h

/-- C1 (corrected): when the stored value is missing the load yields
the empty collection, and when the stored value fails to parse the
load propagates the parse exception (there is no recovery path). -/
theorem load_persisted_spec :
    (∀ storage : Storage, getItem storage "starred" = none →
      loadStarredInit storage = Except.ok [])
    ∧ (∀ storage : Storage, getItem storage "history" = none →
      loadHistoryInit storage = Except.ok (Json.arr []))
    ∧ (∀ (storage : Storage) (s : String), getItem storage "starred" = some s →
      s ≠ "" → JSONparse s = none → loadStarredInit storage = Except.error "SyntaxError")
    ∧ (∀ (storage : Storage) (s : String), getItem storage "history" = some s →
      s ≠ "" → JSONparse s = none → loadHistoryInit storage = Except.error "SyntaxError") := by
  refine ⟨?_, ?_, ?_, ?_⟩
  · intro storage h
    unfold loadStarredInit getItemOrEmptyArr
    rw [h]
    rfl
  · intro storage h
    unfold loadHistoryInit getItemOrEmptyArr
    rw [h]
    rfl
  · intro storage s h hne hparse
    have hbeq : (s == "") = false := by simpa using hne
    unfold loadStarredInit getItemOrEmptyArr
    rw [h]
    simp [hbeq, hparse]
  · intro storage s h hne hparse
    have hbeq : (s == "") = false := by simpa using hne
    unfold loadHistoryInit getItemOrEmptyArr
    rw [h]
    simp [hbeq, hparse]

/-- C1 witness: the corrected claim at concrete storages. -/
theorem load_persisted_spec_w :
    loadStarredInit [] = Except.ok []
    ∧ loadHistoryInit [] = Except.ok (Json.arr [])
    ∧ loadStarredInit [("starred", "nope")] = Except.error "SyntaxError"
    ∧ loadHistoryInit [("history", "nope")] = Except.error "SyntaxError" :=
  ⟨load_persisted_spec.1 [] rfl,
   load_persisted_spec.2.1 [] rfl,
   load_persisted_spec.2.2.1 [("starred", "nope")] "nope" rfl (by decide) rfl,
   load_persisted_spec.2.2.2 [("history", "nope")] "nope" rfl (by decide) rfl⟩

/-! C7.  Manifest loading falls back to the built-in single-chunk
manifest on every failure mode, but the fallback is misdirected: the
fallback chunk path "data/sample.json" is prefixed again with "data/"
by `loadAllChunks`, so the fallback chunk is requested from
"data/data/sample.json" while the bundled sample sits at
"data/sample.json" — the corpus cannot actually load from the sample,
defeating the fallback's stated purpose ("Fallback to sample"). -/

/-- C7 (code bug): every manifest-fetch failure mode does return the
built-in fallback manifest naming the chunk path "data/sample.json",
but the chunk request that `loadAllChunks` then issues is
"data/data/sample.json", not the bundled sample's location
"data/sample.json", so the fallback load misses the sample dataset. -/
theorem loadManifest_fallback_misdirected :
    loadManifest FetchResult.networkError = fallbackManifest
    ∧ (∀ body, loadManifest (FetchResult.response false body) = fallbackManifest)
    ∧ JSONparse "nope" = none
    ∧ loadManifest (FetchResult.response true "nope") = fallbackManifest
    ∧ manifestChunkPaths fallbackManifest = ["data/sample.json"]
    ∧ chunkRequestPaths fallbackManifest = ["data/data/sample.json"]
    ∧ chunkRequestPaths fallbackManifest ≠ ["data/sample.json"] := by
  refine ⟨rfl, fun body => rfl, rfl, rfl, rfl, rfl, ?_⟩
  intro h
  rw [show chunkRequestPaths fallbackManifest = ["data/data/sample.json"] from rfl] at h
  simp at h

/-! C9.  Persisting the history is a pure storage write: the in-memory
list is untouched; only the serialized copy is truncated. -/

/-- C9: `saveHistory` changes no component of the state except the
storage, where it writes the serialization of the last-200 window; an
in-memory history longer than 200 stays longer than 200. -/
theorem saveHistory_frame (st : AppState) :
    (saveHistory st).history = st.history
    ∧ (saveHistory st).questions = st.questions
    ∧ (saveHistory st).filtered = st.filtered
    ∧ (saveHistory st).page = st.page
    ∧ (saveHistory st).starred = st.starred
    ∧ getItem (saveHistory st).storage "history" = some (historyPayload st.history)
    ∧ (200 ≤ st.history.length →
        (lastN 200 st.history).length = 200
        ∧ (saveHistory st).history.length = st.history.length) := by
  refine ⟨rfl, rfl, rfl, rfl, rfl, ?_, ?_⟩
  · exact getItem_setItem_same st.storage "history" (historyPayload st.history)
  · intro h
    refine ⟨?_, rfl⟩
    simp only [lastN, List.length_drop]
    omega

/-- C9 witness: a 201-entry in-memory history survives a persist intact
while the serialized window has exactly 200 entries. -/
theorem saveHistory_frame_w :
    (saveHistory stBig).history = stBig.history
    ∧ (lastN 200 stBig.history).length = 200
    ∧ (saveHistory stBig).history.length = stBig.history.length :=
  ⟨(saveHistory_frame stBig).1,
   ((saveHistory_frame stBig).2.2.2.2.2.2 (by simp [stBig])).1,
   ((saveHistory_frame stBig).2.2.2.2.2.2 (by simp [stBig])).2⟩

/-! C10.  A question whose normalized answer key is `null` can never
produce a correct attempt: `i === null` is `false` for every number. -/

/-- C10: with `correct_choice_index = null`, every choice click is
judged incorrect, marked "incorrect", and appends an attempt record
with `correct = false`. -/
theorem missing_key_never_correct (st : AppState) (q : Question) (i : Nat) (ts : Int)
    (h : q.correct_choice_index = none) :
    choiceCorrect q i = false
    ∧ markClass q i = "incorrect"
    ∧ (clickChoice st q i ts).history = st.history ++ [⟨q.uId, false, ts⟩]
    ∧ getItem (clickChoice st q i ts).storage "history"
        = some (historyPayload (st.history ++ [⟨q.uId, false, ts⟩])) := by
  have hc : choiceCorrect q i = false := by simp [choiceCorrect, h]
  refine ⟨hc, by simp [markClass, hc], by simp [clickChoice, saveHistory, hc], ?_⟩
  show getItem (setItem st.storage "history" _) "history" = _
  rw [getItem_setItem_same]
  simp [hc]

/-- C10 witness: the property at a concrete key-less question. -/
theorem missing_key_never_correct_w :
    choiceCorrect qDummy 0 = false
    ∧ markClass qDummy 0 = "incorrect"
    ∧ (clickChoice st0 qDummy 0 7).history = st0.history ++ [⟨qDummy.uId, false, 7⟩] :=
  ⟨(missing_key_never_correct st0 qDummy 0 7 rfl).1,
   (missing_key_never_correct st0 qDummy 0 7 rfl).2.1,
   (missing_key_never_correct st0 qDummy 0 7 rfl).2.2.1⟩

/-! C2.  Pagination. -/

theorem flatten_chunks {α : Type} (s : Nat) (n : Nat) :
    ∀ (l : List α), l.length ≤ n * s →
    ((List.range n).map (fun k => (l.drop (k * s)).take s)).flatten = l := by
  induction n with
  | zero =>
    intro l h
    rw [Nat.zero_mul, Nat.le_zero, List.length_eq_zero] at h
    simp [h]
  | succ n ih =>
    intro l h
    rw [List.range_succ_eq_map, List.map_cons, List.map_map, List.flatten_cons]
    have hmap : ((List.range n).map ((fun k => (l.drop (k * s)).take s) ∘ Nat.succ))
        = (List.range n).map (fun k => ((l.drop s).drop (k * s)).take s) := by
      apply List.map_congr_left
      intro k _
      simp only [Function.comp]
      rw [List.drop_drop, Nat.succ_mul, Nat.add_comm]
    rw [hmap, ih (l.drop s) (by rw [List.length_drop]; rw [Nat.succ_mul] at h; omega)]
    rw [Nat.zero_mul, List.drop_zero, List.take_append_drop]

theorem le_totalPages_mul (len : Nat) : len ≤ totalPages len * pageSize := by
  show len ≤ max 1 ((len + 10 - 1) / 10) * 10
  have h9 : len + 10 - 1 = len + 9 := by omega
  rw [h9]
  have hdm := Nat.div_add_mod (len + 9) 10
  have hlt : (len + 9) % 10 < 10 := Nat.mod_lt _ (by norm_num)
  rcases Nat.le_total ((len + 9) / 10) 1 with h | h
  · rw [Nat.max_eq_left h]
    omega
  · rw [Nat.max_eq_right h]
    omega

/-- C2: the current page is the slice `subset[(page-1)*10 : page*10]`,
`totalPages = max(1, ceil(len/10))`, previous/next clicks keep the page
inside `[1, totalPages]`, and concatenating pages `1..totalPages`
reconstructs the filtered subset exactly. -/
theorem pager_spec (st : AppState) (h1 : 1 ≤ st.page)
    (h2 : st.page ≤ totalPages st.filtered.length) :
    paginate st.filtered st.page
      = (st.filtered.take (st.page * pageSize)).drop ((st.page - 1) * pageSize)
    ∧ totalPages st.filtered.length = max 1 ((st.filtered.length + 9) / 10)
    ∧ 1 ≤ (prevPage st).page ∧ (prevPage st).page ≤ totalPages st.filtered.length
    ∧ 1 ≤ (nextPage st).page ∧ (nextPage st).page ≤ totalPages st.filtered.length
    ∧ ((List.range (totalPages st.filtered.length)).map
        (fun k => paginate st.filtered (k + 1))).flatten = st.filtered := by
  have htp : 1 ≤ totalPages st.filtered.length := le_max_left _ _
  refine ⟨?_, ?_, ?_, ?_, ?_, ?_, ?_⟩
  · show (st.filtered.drop ((st.page - 1) * pageSize)).take pageSize = _
    rw [List.take_drop]
    have hms : (st.page - 1) * pageSize + pageSize = st.page * pageSize := by
      show (st.page - 1) * 10 + 10 = st.page * 10
      omega
    rw [hms]
  · show max 1 ((st.filtered.length + 10 - 1) / 10) = _
    have h9 : st.filtered.length + 10 - 1 = st.filtered.length + 9 := by omega
    rw [h9]
  · exact le_max_left _ _
  · exact Nat.max_le.mpr ⟨htp, by omega⟩
  · exact Nat.le_min.mpr ⟨htp, by omega⟩
  · exact Nat.min_le_left _ _
  · have hfun : (fun k => paginate st.filtered (k + 1))
        = fun k => (st.filtered.drop (k * pageSize)).take pageSize := by
      funext k
      show (st.filtered.drop ((k + 1 - 1) * pageSize)).take pageSize = _
      rw [Nat.add_sub_cancel]
    rw [hfun]
    exact flatten_chunks pageSize _ st.filtered (le_totalPages_mul _)

/-- C2 witness: the pager contract at a one-question subset on page 1. -/
theorem pager_spec_w :
    1 ≤ stOne.page ∧ stOne.page ≤ totalPages stOne.filtered.length
    ∧ ((List.range (totalPages stOne.filtered.length)).map
        (fun k => paginate stOne.filtered (k + 1))).flatten = stOne.filtered :=
  ⟨by decide, by decide, (pager_spec stOne (by decide) (by decide)).2.2.2.2.2.2⟩

/-! C3.  Filtering. -/

theorem filter_chain_then (a b c d e f g : Bool) :
    (g && (if !a && !b then false
           else if !c && !d then false
           else if !e && !f then false
           else true))
      = ((a || b) && (c || d) && (e || f) && (false || g)) := by
  cases a <;> cases b <;> cases c <;> cases d <;> cases e <;> cases f <;> cases g <;> decide

theorem filter_chain_else (a b c d e f g : Bool) :
    (if !a && !b then false
     else if !c && !d then false
     else if !e && !f then false
     else true)
      = ((a || b) && (c || d) && (e || f) && (true || g)) := by
  cases a <;> cases b <;> cases c <;> cases d <;> cases e <;> cases f <;> cases g <;> decide

/-- C3: the filter is exactly one stable pass keeping the questions
that satisfy the conjunction of the non-blank criteria (exact module
and difficulty, case-insensitive substring for domain and free text,
text matching the stem or the skill description); it is a subsequence
of its input, and all-blank criteria impose no constraint. -/
theorem filter_spec (qs : List Question) (qv moduleV domainRaw diffV : String) :
    applyFilter qs qv moduleV domainRaw diffV
      = qs.filter (fun x =>
          (moduleV == "" || x.module == moduleV)
          && ((jsToLower (jsTrim domainRaw) == "")
              || strContains (jsToLower x.primary_class_cd_desc) (jsToLower (jsTrim domainRaw)))
          && ((diffV == "" || x.difficulty == diffV))
          && ((jsToLower (jsTrim qv) == "")
              || (strContains (jsToLower x.stem_html) (jsToLower (jsTrim qv))
                  || strContains (jsToLower x.skill_desc) (jsToLower (jsTrim qv)))))
    ∧ (applyFilter qs qv moduleV domainRaw diffV).Sublist qs
    ∧ applyFilter qs "" "" "" "" = qs := by
  have hmain : ∀ (qv moduleV domainRaw diffV : String),
      applyFilter qs qv moduleV domainRaw diffV
      = qs.filter (fun x =>
          (moduleV == "" || x.module == moduleV)
          && ((jsToLower (jsTrim domainRaw) == "")
              || strContains (jsToLower x.primary_class_cd_desc) (jsToLower (jsTrim domainRaw)))
          && ((diffV == "" || x.difficulty == diffV))
          && ((jsToLower (jsTrim qv) == "")
              || (strContains (jsToLower x.stem_html) (jsToLower (jsTrim qv))
                  || strContains (jsToLower x.skill_desc) (jsToLower (jsTrim qv))))) := by
    intro qv moduleV domainRaw diffV
    unfold applyFilter
    cases htext : (jsToLower (jsTrim qv) == "") with
    | false =>
      rw [if_pos (by simp [bne, htext])]
      rw [List.filter_filter]
      apply List.filter_congr
      intro x _
      simp only [bne]
      exact filter_chain_then (moduleV == "") (x.module == moduleV)
        (jsToLower (jsTrim domainRaw) == "")
        (strContains (jsToLower x.primary_class_cd_desc) (jsToLower (jsTrim domainRaw)))
        (diffV == "") (x.difficulty == diffV)
        (strContains (jsToLower x.stem_html) (jsToLower (jsTrim qv))
         || strContains (jsToLower x.skill_desc) (jsToLower (jsTrim qv)))
    | true =>
      rw [if_neg (by simp [bne, htext])]
      apply List.filter_congr
      intro x _
      simp only [bne]
      exact filter_chain_else _ _ _ _ _ _
        (strContains (jsToLower x.stem_html) (jsToLower (jsTrim qv))
         || strContains (jsToLower x.skill_desc) (jsToLower (jsTrim qv)))
  refine ⟨hmain qv moduleV domainRaw diffV,
          by rw [hmain]; exact List.filter_sublist qs,
          by rw [hmain]; exact List.filter_eq_self.mpr fun a _ => rfl⟩

/-! C4.  Normalization. -/

theorem normalize_length (items : List RawRecord) :
    (normalizeAll items).length
      = items.length
        - items.countP (fun r => !truthyS (jsOrS r.uId (jsOrS r.id r.questionId))) := by
  unfold normalizeAll
  rw [List.filter_map, List.length_map, ← List.countP_eq_length_filter]
  have hsplit := List.length_eq_countP_add_countP
    (fun r : RawRecord => truthyS (jsOrS r.uId (jsOrS r.id r.questionId))) items
  have h1 : items.countP ((fun q => truthyS q.uId) ∘ normalizeRecord)
      = items.countP (fun r => truthyS (jsOrS r.uId (jsOrS r.id r.questionId))) :=
    List.countP_congr (fun x _ => Iff.rfl)
  have h2 : items.countP
        (fun a => decide ¬(fun r : RawRecord =>
          truthyS (jsOrS r.uId (jsOrS r.id r.questionId))) a = true)
      = items.countP (fun r => !truthyS (jsOrS r.uId (jsOrS r.id r.questionId))) :=
    List.countP_congr (fun x _ => by simp)
  rw [h1]
  rw [h2] at hsplit
  omega

theorem normalize_discard (l1 l2 : List RawRecord) (r : RawRecord)
    (h : truthyS (jsOrS r.uId (jsOrS r.id r.questionId)) = false) :
    normalizeAll (l1 ++ r :: l2) = normalizeAll (l1 ++ l2) := by
  have hq : truthyS (normalizeRecord r).uId = false := h
  simp [normalizeAll, List.filter_append, List.filter_cons, hq]

/-- C4: normalization resolves each canonical field by first-non-empty
fallback (uId from uId/id/questionId; module from an explicit field,
else "math" iff the category contains "math" case-insensitively, else
"reading-writing"; difficulty falls back to diff; choices to options;
the answer index to answer_index only when numeric); a record with no
resolvable uId is discarded, shrinking the output by exactly one per
such record; and the all-legacy record normalizes as specified. -/
theorem normalize_spec :
    (∀ items : List RawRecord,
      (normalizeAll items).length
        = items.length
          - items.countP (fun r => !truthyS (jsOrS r.uId (jsOrS r.id r.questionId))))
    ∧ (∀ (l1 l2 : List RawRecord) (r : RawRecord),
        truthyS (jsOrS r.uId (jsOrS r.id r.questionId)) = false →
        normalizeAll (l1 ++ r :: l2) = normalizeAll (l1 ++ l2))
    ∧ (∀ r : RawRecord, truthyS r.uId = true → (normalizeRecord r).uId = r.uId)
    ∧ (∀ r : RawRecord, truthyS r.uId = false → truthyS r.id = true →
        (normalizeRecord r).uId = r.id)
    ∧ (∀ r : RawRecord, truthyS r.uId = false → truthyS r.id = false →
        (normalizeRecord r).uId = r.questionId)
    ∧ (∀ r : RawRecord, truthyS r.module = false →
        ((normalizeRecord r).module = "math" ↔ catContainsMath r = true))
    ∧ (∀ r : RawRecord, truthyS r.difficulty = false →
        (normalizeRecord r).difficulty = jsStrOr r.diff "")
    ∧ (∀ r : RawRecord, r.choices = none → (normalizeRecord r).choices = r.options)
    ∧ (∀ r : RawRecord, r.correct_choice_index = none →
        (normalizeRecord r).correct_choice_index = r.answer_index)
    ∧ (∀ (idv diffv : String) (opts : List String) (ai : Int),
        (normalizeRecord { id := some idv, category := some "Math - Algebra",
                           diff := some diffv, options := some opts,
                           answer_index := some ai }).module = "math"
        ∧ (normalizeRecord { id := some idv, category := some "Math - Algebra",
                             diff := some diffv, options := some opts,
                             answer_index := some ai }).difficulty = diffv
        ∧ (normalizeRecord { id := some idv, category := some "Math - Algebra",
                             diff := some diffv, options := some opts,
                             answer_index := some ai }).choices = some opts
        ∧ (normalizeRecord { id := some idv, category := some "Math - Algebra",
                             diff := some diffv, options := some opts,
                             answer_index := some ai }).correct_choice_index = some ai) := by
  refine ⟨normalize_length, normalize_discard, ?_, ?_, ?_, ?_, ?_, ?_, ?_, ?_⟩
  · intro r h
    simp [normalizeRecord, jsOrS, h]
  · intro r h1 h2
    simp [normalizeRecord, jsOrS, h1, h2]
  · intro r h1 h2
    simp [normalizeRecord, jsOrS, h1, h2]
  · intro r h
    cases hcat : catContainsMath r with
    | false => simp [normalizeRecord, jsStrOr, h, hcat]
    | true => simp [normalizeRecord, jsStrOr, h, hcat]
  · intro r h
    simp [normalizeRecord, jsStrOr, h]
  · intro r h
    simp [normalizeRecord, h]
  · intro r h
    simp [normalizeRecord, h]
  · intro idv diffv opts ai
    refine ⟨rfl, ?_, rfl, rfl⟩
    by_cases hd : diffv = ""
    · subst hd; rfl
    · simp [normalizeRecord, jsStrOr, truthyS, hd]

/-- C4 witness: a record with no identifier at all is dropped (length
shrinks by one), and the uId falls back to id when uId is absent. -/
theorem normalize_spec_w :
    normalizeAll ([] ++ ({} : RawRecord) :: []) = normalizeAll ([] ++ [])
    ∧ (normalizeRecord { id := some "q7" }).uId = some "q7"
    ∧ (normalizeRecord { id := some "q1", category := some "Math - Algebra",
                         diff := some "E", options := some ["A", "B"],
                         answer_index := some 2 }).module = "math" :=
  ⟨normalize_spec.2.1 [] [] {} (by decide),
   by rw [normalize_spec.2.2.2.1 { id := some "q7" } (by decide) (by decide)],
   (normalize_spec.2.2.2.2.2.2.2.2.2 "q1" "E" ["A", "B"] 2).1⟩

/-! C5.  Bounded history persistence. -/

theorem clickAll_history (clicks : List (Question × Nat × Int)) :
    ∀ st : AppState, (clickAll st clicks).history = st.history ++ clicks.map attemptOf := by
  induction clicks with
  | nil => intro st; simp [clickAll]
  | cons c cs ih =>
    intro st
    show (clickAll (clickChoice st c.1 c.2.1 c.2.2) cs).history = _
    rw [ih]
    simp [clickChoice, saveHistory, attemptOf]

theorem clickAll_storage (c : Question × Nat × Int) (cs : List (Question × Nat × Int)) :
    ∀ st : AppState, getItem (clickAll st (c :: cs)).storage "history"
      = some (historyPayload (st.history ++ (c :: cs).map attemptOf)) := by
  induction cs generalizing c with
  | nil =>
    intro st
    show getItem (clickChoice st c.1 c.2.1 c.2.2).storage "history" = _
    unfold clickChoice saveHistory
    simp [getItem_setItem_same, attemptOf]
  | cons c2 cs ih =>
    intro st
    show getItem (clickAll (clickChoice st c.1 c.2.1 c.2.2) (c2 :: cs)).storage "history" = _
    rw [ih c2 (clickChoice st c.1 c.2.1 c.2.2)]
    congr 1
    show historyPayload ((st.history ++ [attemptOf c]) ++ (c2 :: cs).map attemptOf) = _
    rw [List.append_assoc]
    rfl

theorem drop_append_ge {α : Type} (l1 l2 : List α) (k : Nat) (h : l1.length ≤ k) :
    (l1 ++ l2).drop k = l2.drop (k - l1.length) := by
  obtain ⟨m, hm⟩ : ∃ m, k = l1.length + m := ⟨k - l1.length, by omega⟩
  subst hm
  rw [List.drop_append]
  congr 1
  omega

/-- C5: after more than 200 answer-choice clicks, the value persisted
under "history" is the serialization of exactly the most recent 200
attempt records in append order (older entries are dropped from the
serialized copy only). -/
theorem history_persist_bounded (st : AppState) (clicks : List (Question × Nat × Int))
    (h : 200 < clicks.length) :
    (clickAll st clicks).history = st.history ++ clicks.map attemptOf
    ∧ getItem (clickAll st clicks).storage "history"
        = some (stringifyVal (Json.arr
            (((clicks.map attemptOf).drop (clicks.length - 200)).map attemptToJson)))
    ∧ ((clicks.map attemptOf).drop (clicks.length - 200)).length = 200
    ∧ ((clicks.map attemptOf).drop (clicks.length - 200)) <:+ clicks.map attemptOf := by
  obtain ⟨c, cs, rfl⟩ : ∃ c cs, clicks = c :: cs := by
    cases clicks with
    | nil => simp at h
    | cons c cs => exact ⟨c, cs, rfl⟩
  refine ⟨clickAll_history _ _, ?_, ?_, List.drop_suffix _ _⟩
  · rw [clickAll_storage c cs st]
    congr 1
    unfold historyPayload
    congr 2
    unfold lastN
    rw [List.length_append, List.length_map]
    rw [drop_append_ge _ _ _ (by omega)]
    have hidx : st.history.length + (c :: cs).length - 200 - st.history.length
        = (c :: cs).length - 200 := by omega
    rw [hidx]
  · rw [List.length_drop, List.length_map]
    omega

/-- C5 witness: 201 clicks leave a 200-record serialized window. -/
theorem history_persist_bounded_w :
    (clickAll st0 clicks201).history = st0.history ++ clicks201.map attemptOf
    ∧ ((clicks201.map attemptOf).drop (clicks201.length - 200)).length = 200 :=
  ⟨(history_persist_bounded st0 clicks201 (by simp [clicks201])).1,
   (history_persist_bounded st0 clicks201 (by simp [clicks201])).2.2.1⟩

/-! C6.  Star toggle. -/

theorem cons_filter_perm (id : String) :
    ∀ (l : List String), l.Nodup → id ∈ l →
    (id :: l.filter (fun x => x ≠ id)).Perm l := by
  intro l
  induction l with
  | nil => intro _ h; cases h
  | cons a t ih =>
    intro hnd hmem
    rw [List.nodup_cons] at hnd
    by_cases ha : a = id
    · subst ha
      have hf : t.filter (fun x => x ≠ a) = t :=
        List.filter_eq_self.mpr (fun x hx => by
          simp only [decide_eq_true_eq]
          intro hEq
          exact hnd.1 (hEq ▸ hx))
      rw [List.filter_cons]
      rw [show (decide (a ≠ a)) = false by simp]
      simp only [Bool.false_eq_true, if_false]
      rw [hf]
    · have hmem2 : id ∈ t := by
        rcases List.mem_cons.mp hmem with h | h
        · exact absurd h.symm ha
        · exact h
      rw [List.filter_cons]
      rw [show (decide (a ≠ id)) = true by simp [ha]]
      simp only [if_true]
      exact (List.Perm.swap a id _).trans ((ih hnd.2 hmem2).cons a)

theorem starred_filter_perm (l : List String) (id : String) (hnd : l.Nodup)
    (hmem : id ∈ l) : (l.filter (fun x => x ≠ id) ++ [id]).Perm l :=
  (List.perm_append_singleton _ _).trans (cons_filter_perm id l hnd hmem)

/-- C6 counterexample: with starred set `{"a", "b"}` persisted in sync,
toggling `"a"` twice preserves membership but rewrites the persisted
array as `["b","a"]`, so the stored string is not restored. -/
theorem star_toggle_cex :
    (toggleStar (toggleStar stAB "a") "a").starred = ["b", "a"]
    ∧ getItem stAB.storage "starred" = some "[\"a\",\"b\"]"
    ∧ getItem (toggleStar (toggleStar stAB "a") "a").storage "starred"
        = some "[\"b\",\"a\"]"
    ∧ getItem (toggleStar (toggleStar stAB "a") "a").storage "starred"
        ≠ getItem stAB.storage "starred" := by
  refine ⟨rfl, rfl, rfl, ?_⟩
  intro h
  rw [show getItem (toggleStar (toggleStar stAB "a") "a").storage "starred"
        = some "[\"b\",\"a\"]" from rfl,
      show getItem stAB.storage "starred" = some "[\"a\",\"b\"]" from rfl] at h
  simp at h

/-- C6 (corrected): toggling the same identifier twice always restores
the in-memory membership;  when the identifier was not starred it also
restores the starred list and the persisted content exactly (given the
storage was in sync); when it was starred, the starred list after the
double toggle is a permutation of the original (the identifier moves to
the end of the insertion order, so the persisted array may be
reordered). -/
theorem star_toggle_involution (st : AppState) (id : String) :
    (∀ x, x ∈ (toggleStar (toggleStar st id) id).starred ↔ x ∈ st.starred)
    ∧ (id ∈ st.starred → st.starred.Nodup →
        ((toggleStar (toggleStar st id) id).starred).Perm st.starred)
    ∧ (id ∉ st.starred → (toggleStar (toggleStar st id) id).starred = st.starred)
    ∧ (id ∉ st.starred → getItem st.storage "starred" = some (starredPayload st.starred) →
        toggleStar (toggleStar st id) id = st) := by
  have hpos : id ∈ st.starred →
      (toggleStar (toggleStar st id) id).starred
        = st.starred.filter (fun x => x ≠ id) ++ [id] := by
    intro hmem
    have hc : st.starred.contains id = true := by simp [hmem]
    have h1 : (toggleStar st id).starred = st.starred.filter (fun x => x ≠ id) := by
      show (if st.starred.contains id = true then st.starred.filter (fun x => x ≠ id)
            else st.starred ++ [id]) = _
      rw [hc]
      rfl
    have hc2 : ((toggleStar st id).starred).contains id = false := by
      rw [h1]; simp
    show (if ((toggleStar st id).starred).contains id then _ else _) = _
    rw [hc2]
    simp only [Bool.false_eq_true, if_false]
    rw [h1]
  have hnegL : id ∉ st.starred →
      (toggleStar (toggleStar st id) id).starred = st.starred := by
    intro hmem
    have hc : st.starred.contains id = false := by simp [hmem]
    have h1 : (toggleStar st id).starred = st.starred ++ [id] := by
      show (if st.starred.contains id = true then st.starred.filter (fun x => x ≠ id)
            else st.starred ++ [id]) = _
      rw [hc]
      simp only [Bool.false_eq_true, if_false]
    have hc2 : ((toggleStar st id).starred).contains id = true := by
      rw [h1]; simp
    show (if ((toggleStar st id).starred).contains id then _ else _) = _
    rw [hc2]
    simp only [if_true]
    rw [h1, List.filter_append]
    have hfl : st.starred.filter (fun x => x ≠ id) = st.starred :=
      List.filter_eq_self.mpr (fun x hx => by
        simp only [decide_eq_true_eq]
        intro hEq
        exact hmem (hEq ▸ hx))
    have hfr : [id].filter (fun x => x ≠ id) = [] := by simp
    rw [hfl, hfr, List.append_nil]
  refine ⟨?_, ?_, hnegL, ?_⟩
  · intro x
    by_cases hmem : id ∈ st.starred
    · rw [hpos hmem]
      simp only [List.mem_append, List.mem_filter, decide_eq_true_eq,
        List.mem_singleton]
      constructor
      · rintro (⟨hx, _⟩ | rfl)
        · exact hx
        · exact hmem
      · intro hx
        by_cases hxid : x = id
        · exact Or.inr hxid
        · exact Or.inl ⟨hx, hxid⟩
    · rw [hnegL hmem]
  · intro hmem hnd
    rw [hpos hmem]
    exact starred_filter_perm st.starred id hnd hmem
  · intro hmem hsync
    have hc : st.starred.contains id = false := by simp [hmem]
    have hL := hnegL hmem
    -- both toggles only touch `starred` and `storage`; compute the
    -- final storage write and cancel it against the in-sync original
    have hsto : (toggleStar (toggleStar st id) id).storage
        = setItem (setItem st.storage "starred"
            (starredPayload ((toggleStar st id).starred))) "starred"
            (starredPayload ((toggleStar (toggleStar st id) id).starred)) := rfl
    have hfinal : (toggleStar (toggleStar st id) id).storage = st.storage := by
      rw [hsto, hL, setItem_setItem_same, setItem_of_getItem_eq _ _ _ hsync]
    obtain ⟨q, f, p, sst, hh, sto⟩ := st
    have hshape : toggleStar (toggleStar (AppState.mk q f p sst hh sto) id) id
        = AppState.mk q f p
            ((toggleStar (toggleStar (AppState.mk q f p sst hh sto) id) id).starred) hh
            ((toggleStar (toggleStar (AppState.mk q f p sst hh sto) id) id).storage) := rfl
    rw [hshape, hL, hfinal]

/-- C6 witness: the corrected claim at a concrete state where the
toggled identifier was not starred and storage is in sync. -/
theorem star_toggle_involution_w :
    (toggleStar (toggleStar stB "a") "a").starred = stB.starred
    ∧ ((toggleStar (toggleStar stB "a") "a").starred).Perm stB.starred
    ∧ toggleStar (toggleStar stB "a") "a" = stB :=
  ⟨(star_toggle_involution stB "a").2.2.1 (by decide),
   ((star_toggle_involution stB "a").2.2.1 (by decide)) ▸ List.Perm.refl _,
   (star_toggle_involution stB "a").2.2.2 (by decide) rfl⟩

/-! C8.  Fisher–Yates shuffle. -/

theorem cons_perm_set {α : Type} :
    ∀ (t : List α) (j : Nat) (x b : α), t[j]? = some b →
    (x :: t).Perm (b :: t.set j x) := by
  intro t
  induction t with
  | nil =>
    intro j x b h
    rw [List.getElem?_nil] at h
    exact Option.noConfusion h
  | cons y s ih =>
    intro j x b h
    cases j with
    | zero =>
      rw [List.getElem?_cons_zero] at h
      cases h
      exact List.Perm.swap y x s
    | succ k =>
      rw [List.getElem?_cons_succ] at h
      rw [List.set_cons_succ]
      exact ((List.Perm.swap y x s).trans ((ih k x b h).cons y)).trans
        (List.Perm.swap b y (s.set k x))

theorem listSwap_perm {α : Type} : ∀ (l : List α) (i j : Nat), (listSwap l i j).Perm l := by
  intro l
  induction l with
  | nil =>
    intro i j
    simp [listSwap]
  | cons x t ih =>
    intro i j
    cases i with
    | zero =>
      cases j with
      | zero =>
        have he : listSwap (x :: t) 0 0 = x :: t := by
          simp [listSwap]
        rw [he]
      | succ k =>
        cases hb : t[k]? with
        | none =>
          have he : listSwap (x :: t) 0 (k + 1) = x :: t := by
            simp [listSwap, hb]
          rw [he]
        | some b =>
          have he : listSwap (x :: t) 0 (k + 1) = b :: t.set k x := by
            simp [listSwap, hb]
          rw [he]
          exact (cons_perm_set t k x b hb).symm
    | succ m =>
      cases ha : t[m]? with
      | none =>
        have he : listSwap (x :: t) (m + 1) j = x :: t := by
          simp [listSwap, ha]
        rw [he]
      | some a =>
        cases j with
        | zero =>
          have he : listSwap (x :: t) (m + 1) 0 = a :: t.set m x := by
            simp [listSwap, ha]
          rw [he]
          exact (cons_perm_set t m x a ha).symm
        | succ k =>
          cases hb : t[k]? with
          | none =>
            have he : listSwap (x :: t) (m + 1) (k + 1) = x :: t := by
              simp [listSwap, ha, hb]
            rw [he]
          | some b =>
            have he : listSwap (x :: t) (m + 1) (k + 1) = x :: listSwap t m k := by
              simp [listSwap, ha, hb]
            rw [he]
            exact (ih m k).cons x

theorem fyLoop_perm {α : Type} (draws : Nat → Nat) :
    ∀ (i : Nat) (l : List α), (fyLoop draws l i).Perm l := by
  intro i
  induction i with
  | zero => intro l; exact List.Perm.refl l
  | succ i ih =>
    intro l
    exact (ih (listSwap l (i + 1) (draws (i + 1) % (i + 2)))).trans
      (listSwap_perm l (i + 1) (draws (i + 1) % (i + 2)))

/-- C8: shuffling permutes the full collection (Fisher–Yates is a
permutation for every draw sequence), presents its first 10 elements as
the filtered subset with the page reset to 1, and for a collection of
at least 10 distinct questions yields exactly 10 pairwise-distinct
members of the collection. -/
theorem shuffle_spec (st : AppState) (draws : Nat → Nat)
    (h10 : 10 ≤ st.questions.length) :
    (fyLoop draws st.questions (st.questions.length - 1)).Perm st.questions
    ∧ (shufflePractice st draws).filtered
        = (fyLoop draws st.questions (st.questions.length - 1)).take 10
    ∧ (shufflePractice st draws).page = 1
    ∧ (shufflePractice st draws).questions = st.questions
    ∧ (shufflePractice st draws).filtered.length = 10
    ∧ (∀ q ∈ (shufflePractice st draws).filtered, q ∈ st.questions)
    ∧ (st.questions.Nodup → (shufflePractice st draws).filtered.Nodup) := by
  have hperm := fyLoop_perm draws (st.questions.length - 1) st.questions
  refine ⟨hperm, rfl, rfl, rfl, ?_, ?_, ?_⟩
  · show ((fyLoop draws st.questions (st.questions.length - 1)).take 10).length = 10
    rw [List.length_take, hperm.length_eq]
    omega
  · intro q hq
    have hq2 : q ∈ fyLoop draws st.questions (st.questions.length - 1) :=
      (List.take_sublist _ _).subset hq
    exact hperm.mem_iff.mp hq2
  · intro hnd
    exact (List.take_sublist _ _).nodup (hperm.nodup_iff.mpr hnd)

/-- C8 witness: shuffling a 10-question collection with the identity
draw sequence. -/
theorem shuffle_spec_w :
    (fyLoop (fun i => i) stTen.questions (stTen.questions.length - 1)).Perm stTen.questions
    ∧ (shufflePractice stTen (fun i => i)).page = 1
    ∧ (shufflePractice stTen (fun i => i)).filtered.length = 10
    ∧ (shufflePractice stTen (fun i => i)).filtered.Nodup :=
  ⟨(shuffle_spec stTen (fun i => i) (by decide)).1,
   (shuffle_spec stTen (fun i => i) (by decide)).2.2.1,
   (shuffle_spec stTen (fun i => i) (by decide)).2.2.2.2.1,
   (shuffle_spec stTen (fun i => i) (by decide)).2.2.2.2.2.2 (by decide)⟩

end SatBank
